import Mathlib

/-!
Shallow embedding of the recipe-management backend
(repository `udemy-python-django-intermediate`, app `recipe`).

The embedding covers:
* the Python helpers used by `recipe/views.py` (`str.split(',')`, `int(...)`
  string parsing, truthiness of query-parameter strings);
* `RecipeViewSet.get_queryset` / `_params_to_ints` (owner scoping plus the
  comma-separated tag/ingredient id filters, `order_by('-id').distinct()`);
* the DRF detail-route lookup (`get_object`: primary-key lookup inside
  `get_queryset`, missing row reported as NotFound) and the delete/update
  routes built on it;
* `BaseRecipeAttrViewSet.get_queryset` (tag/ingredient listing with the
  `assigned_only` flag, `order_by('-name').distinct()`);
* the nested tag/ingredient reconciler of the recipe serializer.  The file
  `recipe/serializers.py` is not part of the provided sources (only its tests
  and callers are), so the reconciler and the transactional create/update are
  modelled from the spec; each such definition carries a doc comment starting
  with `Modelled from the spec:`.

Databases are lists of records; ids and users are natural numbers; machine
integers of the original program are unbounded Python integers, modelled by
`Nat`/`Int`.  Fallible request handlers return `Except ApiError`.
-/

namespace RecipeApi

/-- Error taxonomy of the HTTP layer as observed by a caller.  `notFound` is
DRF's 404, `forbidden` is DRF's 403 (present in the type so that statements
can distinguish the two), `validationError` is a DRF `ValidationError`
(HTTP 400, a client input error), `valueError` is an uncaught Python
`ValueError` (surfaces as an HTTP 500 server error), `unauthorized` is 401. -/
inductive ApiError where
  | notFound
  | forbidden
  | validationError
  | valueError
  | unauthorized
deriving DecidableEq, Repr

/-! ### Python string and integer primitives -/

/-- Splitting a character list at commas; `Python str.split(',')` semantics:
the empty string yields one empty field, and separators delimit possibly
empty fields. -/
def splitCommaChars : List Char → List (List Char)
  | [] => [[]]
  | c :: cs =>
    match splitCommaChars cs with
    | [] => if c = ',' then [[], []] else [[c]]
    | g :: gs => if c = ',' then [] :: g :: gs else (c :: g) :: gs

/-- `Python str.split(',')` on a string. -/
def pySplit (s : String) : List String :=
  (splitCommaChars s.data).map String.mk

/-- Numeric value of a decimal digit character. -/
def digitVal (c : Char) : Nat := c.toNat - 48

/-- Digit-run parser for `Python int(...)`, after the first digit has been
consumed into `acc`: underscores are allowed only between digits. -/
def pyDigitsGo (acc : Nat) : List Char → Option Nat
  | [] => some acc
  | ['_'] => none
  | '_' :: c :: cs =>
    if c.isDigit then pyDigitsGo (acc * 10 + digitVal c) cs else none
  | c :: cs =>
    if c.isDigit then pyDigitsGo (acc * 10 + digitVal c) cs else none

/-- Digit-run parser for `Python int(...)`: at least one digit, underscores
only between digits. -/
def pyDigits : List Char → Option Nat
  | [] => none
  | c :: cs => if c.isDigit then pyDigitsGo (digitVal c) cs else none

/-- Leading and trailing whitespace removal (`Python str.strip()`). -/
def pyStrip (s : List Char) : List Char :=
  ((s.dropWhile Char.isWhitespace).reverse.dropWhile Char.isWhitespace).reverse

/-- `Python int(s)` on a string: optional surrounding whitespace, optional
sign, then a digit run; `none` models a raised `ValueError`. -/
def pyInt (s : String) : Option Int :=
  match pyStrip s.data with
  | '-' :: rest => (pyDigits rest).map (fun n => -(n : Int))
  | '+' :: rest => (pyDigits rest).map (fun n => (n : Int))
  | cs => (pyDigits cs).map (fun n => (n : Int))

/-- Python truthiness of a string: non-empty strings are truthy. -/
def pyTruthy (s : String) : Bool := s ≠ ""

/-! ### Data model

`core/models.py` is not under the provided sources; the record shapes below
are the ones exercised by `recipe/views.py` and its tests: recipes carry an
id, an owner, scalar fields, and many-to-many id sets for tags and
ingredients; tags and ingredients share one shape (id, owner, name). -/

/-- A recipe row.  `tags` and `ingredients` hold the ids of the linked
  many-to-many rows. -/
structure Recipe where
  id : Nat
  user : Nat
  title : String
  link : String
  tags : List Nat
  ingredients : List Nat
deriving DecidableEq, Repr

/-- A tag or ingredient row (`Tag` and `Ingredient` share this shape). -/
structure Attr where
  id : Nat
  user : Nat
  name : String
deriving DecidableEq, Repr

/-! ### RecipeViewSet: `_params_to_ints` and `get_queryset` -/

/-- The list comprehension `[int(x) for x in qs.split(',')]`: stops with a
`ValueError` at the first token `int` rejects. -/
def intList : List String → Except ApiError (List Int)
  | [] => .ok []
  | t :: ts =>
    match pyInt t with
    | none => .error .valueError
    | some i =>
      match intList ts with
      | .error e => .error e
      | .ok is2 => .ok (i :: is2)

/-- `RecipeViewSet._params_to_ints`: convert a comma-separated string of ids
to a list of integers. -/
def params_to_ints (qs : String) : Except ApiError (List Int) :=
  intList (pySplit qs)

/-- Descending-id order used by `order_by('-id')` on recipes. -/
def recDescId (a b : Recipe) : Prop := b.id ≤ a.id

instance : DecidableRel recDescId := fun a b => Nat.decLe b.id a.id

instance : IsTotal Recipe recDescId :=
  ⟨fun a b => Nat.le_total b.id a.id⟩

instance : IsTrans Recipe recDescId :=
  ⟨fun _ _ _ hab hbc => Nat.le_trans hbc hab⟩

/-- Descending-name order used by `order_by('-name')` on tags/ingredients
(string comparison). -/
def attrDescName (a b : Attr) : Prop := b.name ≤ a.name

instance : DecidableRel attrDescName := fun a b =>
  inferInstanceAs (Decidable (b.name ≤ a.name))

instance : IsTotal Attr attrDescName :=
  ⟨fun a b => le_total b.name a.name⟩

instance : IsTrans Attr attrDescName :=
  ⟨fun _ _ _ hab hbc => le_trans hbc hab⟩

/-- One queryset filter step of `RecipeViewSet.get_queryset`: `if tags:` (a
missing or empty parameter is falsy and is skipped), then
`queryset.filter(tags__id__in=tag_ids)`.  The many-to-many filter is the SQL
join: it emits one row per (recipe, matching related id) pair; the later
`distinct()` removes the duplicates. -/
def applyIdFilter (qs : List Recipe) (proj : Recipe → List Nat)
    (param : Option String) : Except ApiError (List Recipe) :=
  match param with
  | none => .ok qs
  | some s =>
    if pyTruthy s then
      match params_to_ints s with
      | .error e => .error e
      | .ok ids =>
        .ok (qs.flatMap fun r =>
          ((proj r).filter fun t : Nat => decide ((t : Int) ∈ ids)).map
            fun _ => r)
    else .ok qs

/-- Final `order_by('-id').distinct()` of the recipe queryset. -/
def sortDedupRec (qs : List Recipe) : List Recipe :=
  qs.dedup.insertionSort recDescId

/-- `RecipeViewSet.get_queryset`: restrict to the authenticated user, apply
the optional `tags` and `ingredients` id filters, filter by user again, and
finish with `order_by('-id').distinct()`. -/
def recipeGetQueryset (store : List Recipe) (u : Nat)
    (tagsParam ingredientsParam : Option String) :
    Except ApiError (List Recipe) :=
  match applyIdFilter (store.filter fun r => decide (r.user = u)) Recipe.tags
      tagsParam with
  | .error e => .error e
  | .ok qs1 =>
    match applyIdFilter qs1 Recipe.ingredients ingredientsParam with
    | .error e => .error e
    | .ok qs2 =>
      .ok (sortDedupRec (qs2.filter fun r => decide (r.user = u)))

/-- The DRF detail-route lookup for recipes: `get_object` resolves the
primary key inside `get_queryset` and reports NotFound when no row of the
scoped queryset has that key. -/
def getObject (store : List Recipe) (u : Nat) (pk : Nat) :
    Except ApiError Recipe :=
  match recipeGetQueryset store u none none with
  | .error e => .error e
  | .ok qs =>
    match qs.find? (fun r => r.id == pk) with
    | some r => .ok r
    | none => .error .notFound

/-- The recipe delete route: `get_object` then `instance.delete()`. -/
def deleteRecipe (store : List Recipe) (u : Nat) (pk : Nat) :
    Except ApiError (List Recipe) :=
  match getObject store u pk with
  | .error e => .error e
  | .ok r => .ok (store.filter fun x => decide (x.id ≠ r.id))

/-! ### BaseRecipeAttrViewSet: `get_queryset` for tags and ingredients -/

/-- `BaseRecipeAttrViewSet.get_queryset`:
`assigned_only = bool(int(request.query_params.get('assigned_only', 0)))`
(a non-integer value makes `int` raise `ValueError`); when set, keep only
rows linked to at least one recipe (`filter(recipe__isnull=False)`, a join
emitting one row per linked recipe); then restrict to the authenticated
user and finish with `order_by('-name').distinct()`.  `proj` selects which
many-to-many field of a recipe this attribute kind lives in. -/
def attrGetQueryset (store : List Attr) (recipes : List Recipe)
    (proj : Recipe → List Nat) (u : Nat) (assignedParam : Option String) :
    Except ApiError (List Attr) :=
  match (match assignedParam with
         | none => some (0 : Int)
         | some s => pyInt s) with
  | none => .error .valueError
  | some v =>
    .ok ((((if v ≠ 0 then
        store.flatMap fun a =>
          (recipes.filter fun r => decide (a.id ∈ proj r)).map fun _ => a
      else store).filter fun a => decide (a.user = u)).dedup).insertionSort
      attrDescName)

/-! ### Nested-relation reconciler and transactional create/update

`recipe/serializers.py` and `core/models.py` are not among the provided
sources (only their tests and callers are), so the definitions of this
section are modelled from the spec (sections 4.2, 5 and 7). -/

/-- A tag or ingredient table: its rows plus the next auto-increment id. -/
structure AttrStore where
  rows : List Attr
  nextId : Nat
deriving DecidableEq, Repr

/-- Lookup of an entity owned by `u` with exactly the (case-sensitive)
name `n`. -/
def findAttr (rows : List Attr) (u : Nat) (n : String) : Option Attr :=
  rows.find? fun t => t.user == u && t.name == n

/-- Modelled from the spec: the find-or-create step of the nested-relation
reconciler (`recipe/serializers.py` is not in the provided sources) — look
up an entity of this kind owned by the requester with exactly the given
name; reuse it if found, otherwise insert a fresh row owned by the
requester with that name. -/
def getOrCreateAttr (u : Nat) (n : String) (s : AttrStore) : Attr × AttrStore :=
  match findAttr s.rows u n with
  | some t => (t, s)
  | none =>
    let t : Attr := ⟨s.nextId, u, n⟩
    (t, ⟨s.rows ++ [t], s.nextId + 1⟩)

/-- Blank-string test used by name validation (`Python str.strip()` of the
name is empty). -/
def isBlank (s : String) : Bool := pyStrip s.data = []

/-- Modelled from the spec: resolution of a list of relation names
(`recipe/serializers.py` is not in the provided sources) — walk the names
in the given order; a blank name is a client input error; every other name
is resolved by find-or-create against the store threaded through the
walk. -/
def resolveNames (u : Nat) :
    List String → AttrStore → Except ApiError (List Attr × AttrStore)
  | [], s => .ok ([], s)
  | n :: rest, s =>
    if isBlank n then .error .validationError
    else
      match getOrCreateAttr u n s with
      | (t, s1) =>
        match resolveNames u rest s1 with
        | .error e => .error e
        | .ok (ts, s2) => .ok (t :: ts, s2)

/-- Modelled from the spec: one reconciliation of a relation kind
(`recipe/serializers.py` is not in the provided sources) — resolve the
names, then replace the recipe's association set for this kind by exactly
the resolved references; association sets have no duplicate members, so
repeated references collapse to one. -/
def reconcileAttrs (u : Nat) (ns : List String) (s : AttrStore) :
    Except ApiError (List Nat × AttrStore) :=
  match resolveNames u ns s with
  | .error e => .error e
  | .ok (ts, s2) => .ok ((ts.map Attr.id).dedup, s2)

/-- Reconcile an optional nested name list: an absent list leaves the
current association set and the store untouched (partial update). -/
def reconcileOpt (u : Nat) (o : Option (List String)) (cur : List Nat)
    (s : AttrStore) : Except ApiError (List Nat × AttrStore) :=
  match o with
  | none => .ok (cur, s)
  | some ns => reconcileAttrs u ns s

/-- The whole persisted state: recipe table plus both attribute tables. -/
structure Db where
  recipes : List Recipe
  nextRecipeId : Nat
  tags : AttrStore
  ingredients : AttrStore
deriving DecidableEq, Repr

/-- A recipe create/update request body: scalar fields, an optional
explicit owner id (which the API MUST ignore), and the optional nested
tag/ingredient name lists. -/
structure RecipePayload where
  title : Option String := none
  link : Option String := none
  user : Option Nat := none
  tags : Option (List String) := none
  ingredients : Option (List String) := none
deriving DecidableEq, Repr

/-- Modelled from the spec: the persistence layer's transaction boundary —
run the body against the store and commit its resulting state only when
every step succeeded; any error aborts the whole operation and leaves the
store unchanged. -/
def runTx {α : Type} (body : Db → Except ApiError (α × Db)) (db : Db) :
    Except ApiError α × Db :=
  match body db with
  | .ok (a, db2) => (.ok a, db2)
  | .error e => (.error e, db)

/-- Modelled from the spec: the update path of the recipe serializer
(`recipe/serializers.py` is not in the provided sources) — resolve the
target through the owner-scoped lookup, reconcile each supplied nested
name list, update the supplied scalar fields, and keep the owner exactly
as it was (ownership is immutable after creation). -/
def updateBody (u pk : Nat) (p : RecipePayload) (db : Db) :
    Except ApiError (Recipe × Db) :=
  match getObject db.recipes u pk with
  | .error e => .error e
  | .ok r =>
    match reconcileOpt u p.tags r.tags db.tags with
    | .error e => .error e
    | .ok (tids, ts) =>
      match reconcileOpt u p.ingredients r.ingredients db.ingredients with
      | .error e => .error e
      | .ok (iids, is2) =>
        let r2 : Recipe := { r with
          title := p.title.getD r.title
          link := p.link.getD r.link
          tags := tids
          ingredients := iids }
        .ok (r2, { db with
          recipes := db.recipes.map fun x => if x.id = pk then r2 else x
          tags := ts
          ingredients := is2 })

/-- The recipe update route (partial or full): the update body inside one
transaction. -/
def updateRecipe (u pk : Nat) (p : RecipePayload) (db : Db) :
    Except ApiError Recipe × Db :=
  runTx (updateBody u pk p) db

/-- Modelled from the spec: the create path — `perform_create` saves the
serializer with `user=self.request.user` (from `recipe/views.py`), the
serializer reconciles the nested name lists and inserts the new recipe row
owned by the requester. -/
def createBody (u : Nat) (p : RecipePayload) (db : Db) :
    Except ApiError (Recipe × Db) :=
  match reconcileOpt u p.tags [] db.tags with
  | .error e => .error e
  | .ok (tids, ts) =>
    match reconcileOpt u p.ingredients [] db.ingredients with
    | .error e => .error e
    | .ok (iids, is2) =>
      let r : Recipe :=
        ⟨db.nextRecipeId, u, p.title.getD "", p.link.getD "", tids, iids⟩
      .ok (r, { db with
        recipes := db.recipes ++ [r]
        nextRecipeId := db.nextRecipeId + 1
        tags := ts
        ingredients := is2 })

/-- The recipe create route: the create body inside one transaction. -/
def createRecipe (u : Nat) (p : RecipePayload) (db : Db) :
    Except ApiError Recipe × Db :=
  runTx (createBody u p) db

/-- Number of rows of the store owned by `u` carrying exactly the name
`n`. -/
def countAttr (s : AttrStore) (u : Nat) (n : String) : Nat :=
  (s.rows.filter fun t => t.user == u && t.name == n).length

/-- The id filter a request activates: `none` when the parameter is absent,
empty (falsy) or unparsable, otherwise the parsed id list.  Used to state
which recipes a filtered listing must return. -/
def activeIds (q : Option String) : Option (List Int) :=
  match q with
  | none => none
  | some s =>
    if pyTruthy s then
      match params_to_ints s with
      | .ok ids => some ids
      | .error _ => none
    else none

/-! ### Lemmas about the query engine -/

theorem mem_joinFilter {qs : List Recipe} {proj : Recipe → List Nat}
    {ids : List Int} {x : Recipe} :
    (x ∈ qs.flatMap fun r =>
        ((proj r).filter fun t : Nat => decide ((t : Int) ∈ ids)).map
          fun _ => r) ↔
      x ∈ qs ∧ ∃ t : Nat, t ∈ proj x ∧ (t : Int) ∈ ids := by
  constructor
  · intro hx
    rcases List.mem_flatMap.mp hx with ⟨a, ha, hxa⟩
    rcases List.mem_map.mp hxa with ⟨t, ht, rfl⟩
    rcases List.mem_filter.mp ht with ⟨htp, hdec⟩
    exact ⟨ha, t, htp, of_decide_eq_true hdec⟩
  · rintro ⟨hx, t, ht, hid⟩
    exact List.mem_flatMap.mpr ⟨x, hx, List.mem_map.mpr
      ⟨t, List.mem_filter.mpr ⟨ht, decide_eq_true hid⟩, rfl⟩⟩

theorem intList_error_eq {ts : List String} {e : ApiError}
    (h : intList ts = .error e) : e = .valueError := by
  induction ts with
  | nil => simp [intList] at h
  | cons t ts ih =>
    cases hp : pyInt t with
    | none =>
      simp only [intList, hp] at h
      cases h
      rfl
    | some i =>
      simp only [intList, hp] at h
      cases hr : intList ts with
      | error e2 => rw [hr] at h; cases h; exact ih hr
      | ok l2 => rw [hr] at h; cases h

theorem intList_bad {ts : List String} {t : String}
    (ht : t ∈ ts) (hp : pyInt t = none) :
    intList ts = .error .valueError := by
  induction ts with
  | nil => cases ht
  | cons a ts ih =>
    simp only [intList]
    rcases List.mem_cons.mp ht with rfl | hmem
    · rw [hp]
    · cases hpa : pyInt a with
      | none => rfl
      | some i => rw [ih hmem]

theorem applyIdFilter_error_eq {qs : List Recipe} {proj : Recipe → List Nat}
    {q : Option String} {e : ApiError}
    (h : applyIdFilter qs proj q = .error e) : e = .valueError := by
  cases q with
  | none => cases h
  | some s =>
    simp only [applyIdFilter] at h
    split at h
    · split at h
      · cases h
        exact intList_error_eq (by assumption)
      · cases h
    · cases h

theorem applyIdFilter_bad {qs : List Recipe} {proj : Recipe → List Nat}
    {s t : String} (hs : pyTruthy s) (ht : t ∈ pySplit s)
    (hp : pyInt t = none) :
    applyIdFilter qs proj (some s) = .error .valueError := by
  simp only [applyIdFilter, hs, if_true, params_to_ints, intList_bad ht hp]

theorem applyIdFilter_ok_mem {qs qs' : List Recipe}
    {proj : Recipe → List Nat} {q : Option String}
    (h : applyIdFilter qs proj q = .ok qs') (x : Recipe) :
    x ∈ qs' ↔ x ∈ qs ∧
      ∀ ids, activeIds q = some ids → ∃ t : Nat, t ∈ proj x ∧ (t : Int) ∈ ids := by
  cases q with
  | none =>
    cases h
    simp [activeIds]
  | some s =>
    simp only [applyIdFilter] at h
    simp only [activeIds]
    by_cases hs : pyTruthy s
    · rw [if_pos hs] at h
      rw [if_pos hs]
      cases hp : params_to_ints s with
      | error e => rw [hp] at h; cases h
      | ok ids =>
        rw [hp] at h
        cases h
        rw [mem_joinFilter]
        constructor
        · rintro ⟨hx, t, ht, hid⟩
          exact ⟨hx, fun ids2 hids2 => by cases hids2; exact ⟨t, ht, hid⟩⟩
        · rintro ⟨hx, hall⟩
          exact ⟨hx, hall ids rfl⟩
    · rw [if_neg hs] at h
      cases h
      rw [if_neg hs]
      simp

theorem sortDedupRec_mem {qs : List Recipe} {x : Recipe} :
    x ∈ sortDedupRec qs ↔ x ∈ qs := by
  unfold sortDedupRec
  rw [(List.perm_insertionSort recDescId _).mem_iff, List.mem_dedup]

theorem sortDedupRec_nodup (qs : List Recipe) : (sortDedupRec qs).Nodup :=
  ((List.perm_insertionSort recDescId _).nodup_iff).mpr (List.nodup_dedup qs)

theorem sortDedupRec_sorted (qs : List Recipe) :
    (sortDedupRec qs).Pairwise recDescId :=
  List.sorted_insertionSort recDescId _

theorem mem_recipeGetQueryset {store : List Recipe} {u : Nat}
    {tq iq : Option String} {l : List Recipe}
    (h : recipeGetQueryset store u tq iq = .ok l) (x : Recipe) :
    x ∈ l ↔ x ∈ store ∧ x.user = u
      ∧ (∀ ids, activeIds tq = some ids → ∃ t : Nat, t ∈ x.tags ∧ (t : Int) ∈ ids)
      ∧ (∀ ids, activeIds iq = some ids →
          ∃ t : Nat, t ∈ x.ingredients ∧ (t : Int) ∈ ids) := by
  unfold recipeGetQueryset at h
  split at h
  · cases h
  · rename_i qs1 h1
    split at h
    · cases h
    · rename_i qs2 h2
      cases h
      rw [sortDedupRec_mem, List.mem_filter, applyIdFilter_ok_mem h2,
        applyIdFilter_ok_mem h1, List.mem_filter]
      simp only [decide_eq_true_eq]
      constructor
      · rintro ⟨⟨⟨⟨hx, -⟩, htag⟩, hing⟩, hu⟩
        exact ⟨hx, hu, htag, hing⟩
      · rintro ⟨hx, hu, htag, hing⟩
        exact ⟨⟨⟨⟨hx, hu⟩, htag⟩, hing⟩, hu⟩

/-- The owner-scoped base queryset a parameterless recipe request sees. -/
def recipeBaseQs (store : List Recipe) (u : Nat) : List Recipe :=
  sortDedupRec ((store.filter fun r => decide (r.user = u)).filter
    fun r => decide (r.user = u))

theorem recipeGetQueryset_none (store : List Recipe) (u : Nat) :
    recipeGetQueryset store u none none = .ok (recipeBaseQs store u) := rfl

theorem getObject_eq (store : List Recipe) (u pk : Nat) :
    getObject store u pk =
      match (recipeBaseQs store u).find? (fun r => r.id == pk) with
      | some r => .ok r
      | none => .error .notFound := rfl

theorem getObject_ok_spec {store : List Recipe} {u pk : Nat} {r : Recipe}
    (h : getObject store u pk = .ok r) :
    r ∈ store ∧ r.user = u ∧ r.id = pk := by
  rw [getObject_eq] at h
  split at h
  · rename_i r0 hf
    cases h
    have hmem := List.mem_of_find?_eq_some hf
    have hp := List.find?_some hf
    rw [recipeBaseQs, sortDedupRec_mem, List.mem_filter, List.mem_filter]
      at hmem
    simp only [decide_eq_true_eq] at hmem
    refine ⟨hmem.1.1, hmem.2, ?_⟩
    simpa using hp
  · cases h

theorem getObject_notFound {store : List Recipe} {u pk : Nat}
    (h : ∀ x ∈ store, x.id = pk → ¬x.user = u) :
    getObject store u pk = .error .notFound := by
  rw [getObject_eq]
  have hnone : (recipeBaseQs store u).find? (fun r => r.id == pk) = none := by
    rw [List.find?_eq_none]
    intro x hx
    rw [recipeBaseQs, sortDedupRec_mem, List.mem_filter, List.mem_filter]
      at hx
    simp only [decide_eq_true_eq] at hx
    simp only [beq_iff_eq]
    exact fun hid => h x hx.1.1 hid hx.2
  rw [hnone]

/-! ### Lemmas about the tag/ingredient listing -/

/-- Whether a request activates the `assigned_only` restriction: the
parameter is present and parses as a non-zero integer (an absent parameter
defaults to `0`). -/
def assignedOnly (ap : Option String) : Prop :=
  ∃ s, ap = some s ∧ ∃ v : Int, pyInt s = some v ∧ v ≠ 0

theorem mem_attrJoin {store : List Attr} {recipes : List Recipe}
    {proj : Recipe → List Nat} {a : Attr} :
    (a ∈ store.flatMap fun a0 =>
        (recipes.filter fun r => decide (a0.id ∈ proj r)).map fun _ => a0) ↔
      a ∈ store ∧ ∃ r ∈ recipes, a.id ∈ proj r := by
  constructor
  · intro ha
    rcases List.mem_flatMap.mp ha with ⟨a0, ha0, haa⟩
    rcases List.mem_map.mp haa with ⟨r, hr, rfl⟩
    rcases List.mem_filter.mp hr with ⟨hrp, hdec⟩
    exact ⟨ha0, r, hrp, of_decide_eq_true hdec⟩
  · rintro ⟨ha, r, hr, hid⟩
    exact List.mem_flatMap.mpr ⟨a, ha, List.mem_map.mpr
      ⟨r, List.mem_filter.mpr ⟨hr, decide_eq_true hid⟩, rfl⟩⟩

theorem assignedOnly_iff {ap : Option String} {v : Int}
    (hv : (match ap with
           | none => some (0 : Int)
           | some s => pyInt s) = some v) :
    assignedOnly ap ↔ v ≠ 0 := by
  cases ap with
  | none =>
    cases hv
    simp [assignedOnly]
  | some s =>
    simp only at hv
    constructor
    · rintro ⟨s', hs', v', hv', hne⟩
      cases hs'
      rw [hv] at hv'
      cases hv'
      exact hne
    · intro hne
      exact ⟨s, rfl, v, hv, hne⟩

theorem mem_attrGetQueryset {store : List Attr} {recipes : List Recipe}
    {proj : Recipe → List Nat} {u : Nat} {ap : Option String} {l : List Attr}
    (h : attrGetQueryset store recipes proj u ap = .ok l) (a : Attr) :
    a ∈ l ↔ a ∈ store ∧ a.user = u ∧
      (assignedOnly ap → ∃ r ∈ recipes, a.id ∈ proj r) := by
  unfold attrGetQueryset at h
  split at h
  · cases h
  · rename_i v hv
    cases h
    rw [(List.perm_insertionSort attrDescName _).mem_iff, List.mem_dedup,
      List.mem_filter]
    simp only [decide_eq_true_eq]
    by_cases h0 : v = 0
    · rw [if_neg (by simp [h0])]
      have hflag : ¬assignedOnly ap := by
        rw [assignedOnly_iff hv]
        simp [h0]
      constructor
      · rintro ⟨ha, hu⟩
        exact ⟨ha, hu, fun hao => absurd hao hflag⟩
      · rintro ⟨ha, hu, -⟩
        exact ⟨ha, hu⟩
    · rw [if_pos h0]
      have hflag : assignedOnly ap := (assignedOnly_iff hv).mpr h0
      rw [mem_attrJoin]
      constructor
      · rintro ⟨⟨ha, hlink⟩, hu⟩
        exact ⟨ha, hu, fun _ => hlink⟩
      · rintro ⟨ha, hu, hlink⟩
        exact ⟨⟨ha, hlink hflag⟩, hu⟩

theorem attrGetQueryset_nodup {store : List Attr} {recipes : List Recipe}
    {proj : Recipe → List Nat} {u : Nat} {ap : Option String} {l : List Attr}
    (h : attrGetQueryset store recipes proj u ap = .ok l) : l.Nodup := by
  unfold attrGetQueryset at h
  split at h
  · cases h
  · cases h
    exact ((List.perm_insertionSort attrDescName _).nodup_iff).mpr
      (List.nodup_dedup _)

theorem attrGetQueryset_sorted {store : List Attr} {recipes : List Recipe}
    {proj : Recipe → List Nat} {u : Nat} {ap : Option String} {l : List Attr}
    (h : attrGetQueryset store recipes proj u ap = .ok l) :
    l.Pairwise attrDescName := by
  unfold attrGetQueryset at h
  split at h
  · cases h
  · cases h
    exact List.sorted_insertionSort attrDescName _

/-! ### Lemmas about the reconciler -/

theorem findAttr_append_some {a b : List Attr} {u : Nat} {n : String}
    {t : Attr} (h : findAttr a u n = some t) :
    findAttr (a ++ b) u n = some t := by
  unfold findAttr at *
  rw [List.find?_append, h]
  rfl

theorem findAttr_append_none {a b : List Attr} {u : Nat} {n : String}
    (h : findAttr a u n = none) :
    findAttr (a ++ b) u n = findAttr b u n := by
  unfold findAttr at *
  rw [List.find?_append, h]
  rfl

theorem findAttr_some_spec {rows : List Attr} {u : Nat} {n : String}
    {t : Attr} (h : findAttr rows u n = some t) :
    t ∈ rows ∧ t.user = u ∧ t.name = n := by
  have hmem := List.mem_of_find?_eq_some h
  have hp := List.find?_some h
  simp only [Bool.and_eq_true, beq_iff_eq] at hp
  exact ⟨hmem, hp.1, hp.2⟩

theorem resolveNames_rows {u : Nat} {names : List String} {s s' : AttrStore}
    {ts : List Attr} (h : resolveNames u names s = .ok (ts, s')) :
    ∃ ext, s'.rows = s.rows ++ ext
      ∧ (∀ t ∈ ext, t.user = u ∧ t.name ∈ names
          ∧ findAttr s.rows u t.name = none ∧ s.nextId ≤ t.id)
      ∧ s.nextId ≤ s'.nextId := by
  induction names generalizing s ts s' with
  | nil =>
    cases h
    exact ⟨[], by simp, by simp, Nat.le_refl _⟩
  | cons n rest ih =>
    simp only [resolveNames] at h
    split at h
    · cases h
    · rcases hgc : getOrCreateAttr u n s with ⟨t, s1⟩
      rw [hgc] at h
      cases hr : resolveNames u rest s1 with
      | error e => rw [hr] at h; cases h
      | ok p =>
        rcases p with ⟨ts1, s2⟩
        rw [hr] at h
        cases h
        rcases ih hr with ⟨ext1, hrows1, hprops1, hnext1⟩
        unfold getOrCreateAttr at hgc
        cases hf : findAttr s.rows u n with
        | some t0 =>
          rw [hf] at hgc
          cases hgc
          refine ⟨ext1, hrows1, ?_, hnext1⟩
          intro x hx
          rcases hprops1 x hx with ⟨hxu, hxn, hxf, hxi⟩
          exact ⟨hxu, List.mem_cons_of_mem _ hxn, hxf, hxi⟩
        | none =>
          rw [hf] at hgc
          cases hgc
          refine ⟨⟨s.nextId, u, n⟩ :: ext1, ?_, ?_, ?_⟩
          · rw [hrows1]
            simp
          · intro x hx
            rcases List.mem_cons.mp hx with rfl | hx1
            · exact ⟨rfl, List.mem_cons_self _ _, hf, Nat.le_refl _⟩
            · rcases hprops1 x hx1 with ⟨hxu, hxn, hxf, hxi⟩
              refine ⟨hxu, List.mem_cons_of_mem _ hxn, ?_, ?_⟩
              · cases hfs : findAttr s.rows u x.name with
                | none => rfl
                | some t0 =>
                  have := findAttr_append_some (b := [⟨s.nextId, u, n⟩]) hfs
                  rw [this] at hxf
                  cases hxf
              · exact Nat.le_trans (Nat.le_succ _) hxi
          · exact Nat.le_trans (Nat.le_succ _) hnext1

theorem resolveNames_find_pres {u : Nat} {names : List String}
    {s s' : AttrStore} {ts : List Attr} {n : String} {t : Attr}
    (hf : findAttr s.rows u n = some t)
    (h : resolveNames u names s = .ok (ts, s')) :
    findAttr s'.rows u n = some t := by
  rcases resolveNames_rows h with ⟨ext, hrows, -, -⟩
  rw [hrows]
  exact findAttr_append_some hf

theorem getOrCreateAttr_find {u : Nat} {n : String} {s s1 : AttrStore}
    {t : Attr} (h : getOrCreateAttr u n s = (t, s1)) :
    findAttr s1.rows u n = some t := by
  unfold getOrCreateAttr at h
  cases hf : findAttr s.rows u n with
  | some t0 =>
    rw [hf] at h
    cases h
    exact hf
  | none =>
    rw [hf] at h
    cases h
    show findAttr (s.rows ++ [⟨s.nextId, u, n⟩]) u n = _
    rw [findAttr_append_none hf]
    simp [findAttr, List.find?]

theorem resolveNames_idem {u : Nat} {names : List String} {s s' : AttrStore}
    {ts : List Attr} (h : resolveNames u names s = .ok (ts, s')) :
    resolveNames u names s' = .ok (ts, s') := by
  induction names generalizing s ts s' with
  | nil =>
    cases h
    rfl
  | cons n rest ih =>
    simp only [resolveNames] at h ⊢
    split at h
    · cases h
    · rename_i hblank
      rcases hgc : getOrCreateAttr u n s with ⟨t, s1⟩
      rw [hgc] at h
      cases hr : resolveNames u rest s1 with
      | error e => rw [hr] at h; cases h
      | ok p =>
        rcases p with ⟨ts1, s2⟩
        rw [hr] at h
        cases h
        rw [if_neg hblank]
        have hfind : findAttr s'.rows u n = some t :=
          resolveNames_find_pres (getOrCreateAttr_find hgc) hr
        have hgc2 : getOrCreateAttr u n s' = (t, s') := by
          unfold getOrCreateAttr
          rw [hfind]
        rw [hgc2, ih hr]

theorem resolveNames_spec {u : Nat} {names : List String} {s s' : AttrStore}
    {ts : List Attr} (hwf : ∀ t ∈ s.rows, t.id < s.nextId)
    (h : resolveNames u names s = .ok (ts, s')) :
    List.Forall₂ (fun n t => t.user = u ∧ t.name = n ∧ t ∈ s'.rows
      ∧ (∀ t0, findAttr s.rows u n = some t0 → t = t0)
      ∧ (findAttr s.rows u n = none → ¬t.id ∈ s.rows.map Attr.id))
      names ts := by
  induction names generalizing s ts s' with
  | nil =>
    cases h
    exact List.Forall₂.nil
  | cons n rest ih =>
    simp only [resolveNames] at h
    split at h
    · cases h
    · rcases hgc : getOrCreateAttr u n s with ⟨t, s1⟩
      rw [hgc] at h
      cases hr : resolveNames u rest s1 with
      | error e => rw [hr] at h; cases h
      | ok p =>
        rcases p with ⟨ts1, s2⟩
        rw [hr] at h
        cases h
        rcases resolveNames_rows hr with ⟨ext1, hrows1, -, -⟩
        unfold getOrCreateAttr at hgc
        cases hf : findAttr s.rows u n with
        | some t0 =>
          rw [hf] at hgc
          cases hgc
          rcases findAttr_some_spec hf with ⟨htmem, htu, htn⟩
          refine List.Forall₂.cons ⟨htu, htn, ?_, ?_, ?_⟩ (ih hwf hr)
          · rw [hrows1]
            exact List.mem_append_left _ htmem
          · intro t0' h0'
            rw [hf] at h0'
            cases h0'
            rfl
          · intro hnone
            rw [hf] at hnone
            cases hnone
        | none =>
          rw [hf] at hgc
          cases hgc
          have hwf1 : ∀ x ∈ (s.rows ++ [(⟨s.nextId, u, n⟩ : Attr)]),
              x.id < s.nextId + 1 := by
            intro x hx
            rcases List.mem_append.mp hx with hx1 | hx1
            · exact Nat.lt_succ_of_lt (hwf x hx1)
            · rw [List.mem_singleton.mp hx1]
              exact Nat.lt_succ_self _
          refine List.Forall₂.cons ⟨rfl, rfl, ?_, ?_, ?_⟩ ?_
          · rw [hrows1]
            exact List.mem_append_left _
              (List.mem_append_right _ (List.mem_singleton.mpr rfl))
          · intro t0 h0
            rw [hf] at h0
            cases h0
          · intro _ hmm
            rcases List.mem_map.mp hmm with ⟨x, hx, hxid⟩
            exact Nat.ne_of_lt (hwf x hx) hxid
          · refine (ih hwf1 hr).imp ?_
            rintro m t2 ⟨h2u, h2n, h2mem, h2find, h2fresh⟩
            refine ⟨h2u, h2n, h2mem, ?_, ?_⟩
            · intro t0 h0
              exact h2find t0 (findAttr_append_some h0)
            · intro h0 hmm
              cases hf1 : findAttr (s.rows ++ [(⟨s.nextId, u, n⟩ : Attr)])
                  u m with
              | none =>
                refine h2fresh hf1 ?_
                rw [List.map_append]
                exact List.mem_append_left _ hmm
              | some t0 =>
                have hsing : findAttr [(⟨s.nextId, u, n⟩ : Attr)] u m
                    = some t0 := by
                  rw [← findAttr_append_none h0]
                  exact hf1
                have ht0 : t0 ∈ [(⟨s.nextId, u, n⟩ : Attr)] :=
                  (findAttr_some_spec hsing).1
                have ht2 : t2 = t0 := h2find t0 hf1
                rcases List.mem_map.mp hmm with ⟨x, hx, hxid⟩
                rw [List.mem_singleton.mp ht0] at ht2
                rw [ht2] at hxid
                exact Nat.ne_of_lt (hwf x hx) hxid

theorem countAttr_eq_zero_iff {s : AttrStore} {u : Nat} {n : String} :
    countAttr s u n = 0 ↔ findAttr s.rows u n = none := by
  unfold countAttr findAttr
  rw [List.length_eq_zero, List.filter_eq_nil_iff, List.find?_eq_none]

theorem reconcile_single_new {u : Nat} {n : String} {s : AttrStore}
    (hbl : isBlank n = false) (hf : findAttr s.rows u n = none) :
    reconcileAttrs u [n] s =
      .ok ([s.nextId], ⟨s.rows ++ [⟨s.nextId, u, n⟩], s.nextId + 1⟩) := by
  unfold reconcileAttrs resolveNames
  rw [if_neg (by simp [hbl])]
  unfold getOrCreateAttr
  rw [hf]
  rfl

theorem countAttr_snoc_same {rows : List Attr} {i j : Nat} {u : Nat}
    {n : String} :
    countAttr ⟨rows ++ [⟨i, u, n⟩], j⟩ u n
      = countAttr ⟨rows, j⟩ u n + 1 := by
  unfold countAttr
  rw [List.filter_append, List.length_append]
  simp

theorem reconcileAttrs_idem {u : Nat} {ns : List String} {s s' : AttrStore}
    {ids : List Nat} (h : reconcileAttrs u ns s = .ok (ids, s')) :
    reconcileAttrs u ns s' = .ok (ids, s') := by
  unfold reconcileAttrs at h ⊢
  cases hr : resolveNames u ns s with
  | error e => rw [hr] at h; cases h
  | ok p =>
    rcases p with ⟨ts, s2⟩
    rw [hr] at h
    cases h
    rw [resolveNames_idem hr]

/-! ### Lemmas about the transactional create/update -/

theorem runTx_ok {α : Type} {body : Db → Except ApiError (α × Db)} {db db2 : Db}
    {a : α} (h : runTx body db = (.ok a, db2)) : body db = .ok (a, db2) := by
  unfold runTx at h
  split at h
  · rename_i a0 db0 hb
    rw [Prod.mk.injEq] at h
    rcases h with ⟨h1, h2⟩
    cases h1
    cases h2
    exact hb
  · rw [Prod.mk.injEq] at h
    rcases h with ⟨h1, -⟩
    cases h1

theorem runTx_error_snd {α : Type} {body : Db → Except ApiError (α × Db)}
    {db : Db} {e : ApiError} (h : (runTx body db).1 = .error e) :
    (runTx body db).2 = db := by
  unfold runTx at h ⊢
  split at h
  · cases h
  · rfl

theorem updateBody_ok_spec {u pk : Nat} {p : RecipePayload} {db db2 : Db}
    {r2 : Recipe} (h : updateBody u pk p db = .ok (r2, db2)) :
    ∃ r, getObject db.recipes u pk = .ok r
      ∧ reconcileOpt u p.tags r.tags db.tags = .ok (r2.tags, db2.tags)
      ∧ reconcileOpt u p.ingredients r.ingredients db.ingredients
          = .ok (r2.ingredients, db2.ingredients)
      ∧ r2.user = r.user ∧ r2.id = r.id
      ∧ db2.recipes = db.recipes.map (fun x => if x.id = pk then r2 else x)
      ∧ db2.nextRecipeId = db.nextRecipeId := by
  unfold updateBody at h
  split at h
  · cases h
  · rename_i r hobj
    split at h
    · cases h
    · rename_i tids ts hrt
      split at h
      · cases h
      · rename_i iids is2 hri
        cases h
        exact ⟨r, hobj, hrt, hri, rfl, rfl, rfl, rfl⟩

theorem updateRecipe_ok_spec {u pk : Nat} {p : RecipePayload} {db db2 : Db}
    {r2 : Recipe} (h : updateRecipe u pk p db = (.ok r2, db2)) :
    ∃ r, getObject db.recipes u pk = .ok r
      ∧ reconcileOpt u p.tags r.tags db.tags = .ok (r2.tags, db2.tags)
      ∧ reconcileOpt u p.ingredients r.ingredients db.ingredients
          = .ok (r2.ingredients, db2.ingredients)
      ∧ r2.user = r.user ∧ r2.id = r.id
      ∧ db2.recipes = db.recipes.map (fun x => if x.id = pk then r2 else x)
      ∧ db2.nextRecipeId = db.nextRecipeId :=
  updateBody_ok_spec (runTx_ok h)

theorem createBody_ok_spec {u : Nat} {p : RecipePayload} {db db2 : Db}
    {r2 : Recipe} (h : createBody u p db = .ok (r2, db2)) :
    reconcileOpt u p.tags [] db.tags = .ok (r2.tags, db2.tags)
      ∧ reconcileOpt u p.ingredients [] db.ingredients
          = .ok (r2.ingredients, db2.ingredients)
      ∧ r2.user = u ∧ r2.id = db.nextRecipeId
      ∧ db2.recipes = db.recipes ++ [r2]
      ∧ db2.nextRecipeId = db.nextRecipeId + 1 := by
  unfold createBody at h
  split at h
  · cases h
  · rename_i tids ts hrt
    split at h
    · cases h
    · rename_i iids is2 hri
      cases h
      exact ⟨hrt, hri, rfl, rfl, rfl, rfl⟩

theorem createRecipe_ok_spec {u : Nat} {p : RecipePayload} {db db2 : Db}
    {r2 : Recipe} (h : createRecipe u p db = (.ok r2, db2)) :
    reconcileOpt u p.tags [] db.tags = .ok (r2.tags, db2.tags)
      ∧ reconcileOpt u p.ingredients [] db.ingredients
          = .ok (r2.ingredients, db2.ingredients)
      ∧ r2.user = u ∧ r2.id = db.nextRecipeId
      ∧ db2.recipes = db.recipes ++ [r2]
      ∧ db2.nextRecipeId = db.nextRecipeId + 1 :=
  createBody_ok_spec (runTx_ok h)

theorem reconcileOpt_rows_mono {u : Nat} {o : Option (List String)}
    {cur ids : List Nat} {s s' : AttrStore}
    (h : reconcileOpt u o cur s = .ok (ids, s')) :
    ∃ ext, s'.rows = s.rows ++ ext := by
  cases o with
  | none =>
    cases h
    exact ⟨[], by simp⟩
  | some ns =>
    simp only [reconcileOpt, reconcileAttrs] at h
    split at h
    · cases h
    · rename_i ts s2 hres
      cases h
      rcases resolveNames_rows hres with ⟨ext, hrows, -, -⟩
      exact ⟨ext, hrows⟩

/-! ### Strict ordering of the recipe listing -/

theorem pairwise_lt_of_sorted_nodup {store l : List Recipe}
    (hids : (store.map Recipe.id).Nodup) (hsub : ∀ x ∈ l, x ∈ store)
    (hnd : l.Nodup) (hp : l.Pairwise recDescId) :
    l.Pairwise fun a b => b.id < a.id := by
  refine (hp.and hnd).imp_of_mem ?_
  intro a b ha hb hab
  rcases hab with ⟨hle, hne⟩
  have hidne : a.id ≠ b.id := fun he =>
    hne (List.inj_on_of_nodup_map hids (hsub a ha) (hsub b hb) he)
  exact Nat.lt_of_le_of_ne hle fun he => hidne he.symm

theorem recipeGetQueryset_nodup {store : List Recipe} {u : Nat}
    {tq iq : Option String} {l : List Recipe}
    (h : recipeGetQueryset store u tq iq = .ok l) : l.Nodup := by
  unfold recipeGetQueryset at h
  split at h
  · cases h
  · split at h
    · cases h
    · cases h
      exact sortDedupRec_nodup _

theorem recipeGetQueryset_sorted {store : List Recipe} {u : Nat}
    {tq iq : Option String} {l : List Recipe}
    (h : recipeGetQueryset store u tq iq = .ok l) :
    l.Pairwise recDescId := by
  unfold recipeGetQueryset at h
  split at h
  · cases h
  · split at h
    · cases h
    · cases h
      exact sortDedupRec_sorted _

/-- A recipe-list filter parameter that is present, truthy (non-empty) and
contains a token `int(...)` rejects. -/
def badFilterParam (q : Option String) : Prop :=
  ∃ s, q = some s ∧ pyTruthy s = true ∧ ∃ t ∈ pySplit s, pyInt t = none

/-! ### Claim theorems -/

/-- C1: for owners `u1 ≠ u2`, a recipe listing requested by `u1` never
contains a recipe of `u2`; a detail/update/delete request by `u1` naming the
id of `u2`'s recipe fails with NotFound (never with the distinct Forbidden
result), exactly as it does for an id that exists nowhere in the store. -/
theorem claim_C1 (store : List Recipe) (u1 u2 : Nat) (r : Recipe)
    (hids : (store.map Recipe.id).Nodup) (hne : u1 ≠ u2)
    (hr : r ∈ store) (hu : r.user = u2) :
    (∀ tq iq l, recipeGetQueryset store u1 tq iq = .ok l → ¬r ∈ l)
    ∧ getObject store u1 r.id = .error .notFound
    ∧ ¬getObject store u1 r.id = .error .forbidden
    ∧ (∀ pk, (∀ x ∈ store, ¬x.id = pk) →
        getObject store u1 pk = .error .notFound)
    ∧ deleteRecipe store u1 r.id = .error .notFound
    ∧ (∀ p db, db.recipes = store →
        updateRecipe u1 r.id p db = (.error .notFound, db)) := by
  have hgo : getObject store u1 r.id = .error .notFound := by
    apply getObject_notFound
    intro x hx hxid
    rw [List.inj_on_of_nodup_map hids hx hr hxid, hu]
    exact fun h => hne h.symm
  refine ⟨?_, hgo, ?_, ?_, ?_, ?_⟩
  · intro tq iq l hl hmem
    have hx := ((mem_recipeGetQueryset hl r).mp hmem).2.1
    rw [hu] at hx
    exact hne hx.symm
  · rw [hgo]
    exact fun hc => absurd (Except.error.inj hc) (by decide)
  · intro pk hnone
    apply getObject_notFound
    intro x hx hxid
    exact absurd hxid (hnone x hx)
  · unfold deleteRecipe
    rw [hgo]
  · intro p db hdb
    have hobj : getObject db.recipes u1 r.id = .error .notFound := by
      rw [hdb]
      exact hgo
    unfold updateRecipe runTx updateBody
    rw [hobj]

theorem claim_C1_witness :
    getObject [⟨1, 2, "T", "L", [], []⟩] 1 1 = .error .notFound :=
  (claim_C1 [⟨1, 2, "T", "L", [], []⟩] 1 2 ⟨1, 2, "T", "L", [], []⟩
    (by decide) (by decide) (by decide) rfl).2.1

/-- C2 counterexample: a recipe-list request whose tags filter is the
non-integer token `abc` fails with an uncaught Python `ValueError` (an HTTP
500 server error), which is not the DRF `ValidationError` client input
error the claim requires. -/
theorem claim_C2_counterexample :
    recipeGetQueryset [] 0 (some "abc") none = .error .valueError
    ∧ ApiError.valueError ≠ ApiError.validationError :=
  ⟨rfl, by decide⟩

/-- C2 (amended): for every recipe-list request whose tags or ingredients
filter parameter contains a non-integer token, the operation does fail —
the malformed filter is never silently dropped — but it fails with an
uncaught `ValueError` (surfacing as a server error), not with a
`ValidationError` reported to the caller as a client input error. -/
theorem claim_C2 (store : List Recipe) (u : Nat) (tq iq : Option String)
    (h : badFilterParam tq ∨ badFilterParam iq) :
    recipeGetQueryset store u tq iq = .error .valueError := by
  rcases h with ⟨s, rfl, hs, t, ht, hp⟩ | ⟨s, hq, hs, t, ht, hp⟩
  · simp only [recipeGetQueryset, applyIdFilter_bad hs ht hp]
  · cases h1 : applyIdFilter (store.filter fun r => decide (r.user = u))
        Recipe.tags tq with
    | error e =>
      simp only [recipeGetQueryset, h1, applyIdFilter_error_eq h1]
    | ok qs1 =>
      simp only [recipeGetQueryset, h1, hq, applyIdFilter_bad hs ht hp]

theorem claim_C2_witness :
    recipeGetQueryset [] 0 (some "1,x") none = .error .valueError :=
  claim_C2 [] 0 (some "1,x") none
    (Or.inl ⟨"1,x", rfl, by decide, "x", by decide, by decide⟩)

/-- C3: a successful recipe listing for user `u` contains exactly the
recipes of `u` whose tag set intersects the tag filter (when one is active)
and whose ingredient set intersects the ingredient filter (when one is
active), conjunctively; each matching recipe appears exactly once; and the
result is ordered by strictly descending recipe id. -/
theorem claim_C3 (store : List Recipe) (u : Nat) (tq iq : Option String)
    (l : List Recipe) (hids : (store.map Recipe.id).Nodup)
    (h : recipeGetQueryset store u tq iq = .ok l) :
    (∀ r, r ∈ l ↔ r ∈ store ∧ r.user = u
      ∧ (∀ ids, activeIds tq = some ids →
          ∃ t : Nat, t ∈ r.tags ∧ (t : Int) ∈ ids)
      ∧ (∀ ids, activeIds iq = some ids →
          ∃ t : Nat, t ∈ r.ingredients ∧ (t : Int) ∈ ids))
    ∧ l.Nodup
    ∧ l.Pairwise fun a b => b.id < a.id := by
  have hmem := fun r => mem_recipeGetQueryset h r
  have hnd := recipeGetQueryset_nodup h
  refine ⟨hmem, hnd, ?_⟩
  exact pairwise_lt_of_sorted_nodup hids (fun x hx => ((hmem x).mp hx).1)
    hnd (recipeGetQueryset_sorted h)

theorem claim_C3_witness :
    ([⟨2, 1, "B", "L", [6], []⟩, ⟨1, 1, "A", "L", [5], []⟩] :
      List Recipe).Pairwise (fun a b => b.id < a.id) :=
  (claim_C3 [⟨1, 1, "A", "L", [5], []⟩, ⟨2, 1, "B", "L", [6], []⟩] 1
    (some "5,6") none [⟨2, 1, "B", "L", [6], []⟩, ⟨1, 1, "A", "L", [5], []⟩]
    (by decide) rfl).2.2

/-- C8: a successful tag/ingredient listing for user `u` contains exactly
the entities of that kind owned by `u`, restricted — when the
`assigned_only` flag is set — to those linked to at least one recipe; each
entity appears exactly once; and the result is ordered by descending
name. -/
theorem claim_C8 (store : List Attr) (recipes : List Recipe)
    (proj : Recipe → List Nat) (u : Nat) (ap : Option String) (l : List Attr)
    (h : attrGetQueryset store recipes proj u ap = .ok l) :
    (∀ a, a ∈ l ↔ a ∈ store ∧ a.user = u ∧
        (assignedOnly ap → ∃ r ∈ recipes, a.id ∈ proj r))
    ∧ l.Nodup ∧ l.Pairwise attrDescName :=
  ⟨fun a => mem_attrGetQueryset h a, attrGetQueryset_nodup h,
    attrGetQueryset_sorted h⟩

theorem claim_C8_witness :
    ([⟨1, 1, "Apple"⟩] : List Attr).Nodup
    ∧ ([⟨1, 1, "Apple"⟩] : List Attr).Pairwise attrDescName :=
  ⟨(claim_C8 [⟨1, 1, "Apple"⟩, ⟨2, 2, "Basil"⟩]
      [⟨1, 1, "Pie", "L", [], [1]⟩] Recipe.ingredients 1 (some "1")
      [⟨1, 1, "Apple"⟩] rfl).2.1,
    (claim_C8 [⟨1, 1, "Apple"⟩, ⟨2, 2, "Basil"⟩]
      [⟨1, 1, "Pie", "L", [], [1]⟩] Recipe.ingredients 1 (some "1")
      [⟨1, 1, "Apple"⟩] rfl).2.2⟩

/-- C10: an authenticated recipe-list request whose tags or ingredients
parameter is present but empty behaves exactly as if the parameter were
absent — the empty string is falsy, so the filter is skipped before integer
parsing and no error is raised. -/
theorem claim_C10 (store : List Recipe) (u : Nat) :
    (∀ iq, recipeGetQueryset store u (some "") iq
        = recipeGetQueryset store u none iq)
    ∧ (∀ tq, recipeGetQueryset store u tq (some "")
        = recipeGetQueryset store u tq none)
    ∧ (∃ l, recipeGetQueryset store u (some "") (some "") = .ok l) := by
  refine ⟨fun iq => rfl, ?_, ⟨_, rfl⟩⟩
  intro tq
  unfold recipeGetQueryset
  cases h1 : applyIdFilter (store.filter fun r => decide (r.user = u))
      Recipe.tags tq with
  | error e => rfl
  | ok qs1 => rfl

/-- C4: when reconciling a name list for owner `u`, the store is only ever
extended (no mutation or deletion of existing rows), every newly created
row belongs to `u`, carries a supplied name and had no owned exact match;
and positionally, each supplied name resolves to its owned exact match when
one exists (same row, hence same id) and to a freshly created row owned by
`u` with that name (an id of no pre-existing row) when none does. -/
theorem claim_C4 (u : Nat) (names : List String) (s s' : AttrStore)
    (ts : List Attr) (hwf : ∀ t ∈ s.rows, t.id < s.nextId)
    (h : resolveNames u names s = .ok (ts, s')) :
    (∃ ext, s'.rows = s.rows ++ ext
      ∧ ∀ t ∈ ext, t.user = u ∧ t.name ∈ names
          ∧ findAttr s.rows u t.name = none)
    ∧ List.Forall₂ (fun n t => t.user = u ∧ t.name = n ∧ t ∈ s'.rows
        ∧ (∀ t0, findAttr s.rows u n = some t0 → t = t0)
        ∧ (findAttr s.rows u n = none → ¬t.id ∈ s.rows.map Attr.id))
        names ts := by
  refine ⟨?_, resolveNames_spec hwf h⟩
  rcases resolveNames_rows h with ⟨ext, hrows, hprops, -⟩
  exact ⟨ext, hrows, fun t ht =>
    ⟨(hprops t ht).1, (hprops t ht).2.1, (hprops t ht).2.2.1⟩⟩

theorem claim_C4_witness :
    ∃ ext, ([⟨7, 1, "Indian"⟩, ⟨8, 1, "Spicy"⟩] : List Attr)
        = [⟨7, 1, "Indian"⟩] ++ ext
      ∧ ∀ t ∈ ext, t.user = 1 ∧ t.name ∈ ["Indian", "Spicy"]
          ∧ findAttr [⟨7, 1, "Indian"⟩] 1 t.name = none :=
  (claim_C4 1 ["Indian", "Spicy"] ⟨[⟨7, 1, "Indian"⟩], 8⟩
    ⟨[⟨7, 1, "Indian"⟩, ⟨8, 1, "Spicy"⟩], 9⟩
    [⟨7, 1, "Indian"⟩, ⟨8, 1, "Spicy"⟩] (by decide) rfl).1

/-- C5: a successful recipe update that supplies a tag (or ingredient) name
list replaces that association set by exactly the reconciler's resolved id
set and commits the reconciler's store: previously associated entities
absent from the new list are unlinked but their rows remain in the store
(the store is only extended), an empty list leaves zero associations of
that kind while the store is untouched, and the updated recipe row is
visible in the committed store. -/
theorem claim_C5 (u pk : Nat) (p : RecipePayload) (db db2 : Db) (r2 : Recipe)
    (h : updateRecipe u pk p db = (.ok r2, db2)) :
    (∀ ns, p.tags = some ns →
      reconcileAttrs u ns db.tags = .ok (r2.tags, db2.tags)
      ∧ (∃ ext, db2.tags.rows = db.tags.rows ++ ext)
      ∧ (ns = [] → r2.tags = [] ∧ db2.tags = db.tags))
    ∧ (∀ ns, p.ingredients = some ns →
      reconcileAttrs u ns db.ingredients
          = .ok (r2.ingredients, db2.ingredients)
      ∧ (∃ ext, db2.ingredients.rows = db.ingredients.rows ++ ext)
      ∧ (ns = [] → r2.ingredients = [] ∧ db2.ingredients = db.ingredients))
    ∧ r2 ∈ db2.recipes := by
  rcases updateRecipe_ok_spec h with ⟨r, hobj, hrt, hri, -, -, hrec, -⟩
  refine ⟨?_, ?_, ?_⟩
  · intro ns hns
    rw [hns] at hrt
    have hrt' : reconcileAttrs u ns db.tags = .ok (r2.tags, db2.tags) := hrt
    refine ⟨hrt', reconcileOpt_rows_mono hrt, ?_⟩
    rintro rfl
    rw [show reconcileAttrs u [] db.tags = .ok ([], db.tags) from rfl]
      at hrt'
    have h2 := Except.ok.inj hrt'
    rw [Prod.mk.injEq] at h2
    exact ⟨h2.1.symm, h2.2.symm⟩
  · intro ns hns
    rw [hns] at hri
    have hri' : reconcileAttrs u ns db.ingredients
        = .ok (r2.ingredients, db2.ingredients) := hri
    refine ⟨hri', reconcileOpt_rows_mono hri, ?_⟩
    rintro rfl
    rw [show reconcileAttrs u [] db.ingredients
        = .ok ([], db.ingredients) from rfl] at hri'
    have h2 := Except.ok.inj hri'
    rw [Prod.mk.injEq] at h2
    exact ⟨h2.1.symm, h2.2.symm⟩
  · rcases getObject_ok_spec hobj with ⟨hrmem, -, hrid⟩
    rw [hrec]
    exact List.mem_map.mpr ⟨r, hrmem, by rw [if_pos hrid]⟩

theorem claim_C5_witness :
    reconcileAttrs 1 ["Lunch"] ⟨[⟨7, 1, "Breakfast"⟩], 8⟩
        = .ok ([8], ⟨[⟨7, 1, "Breakfast"⟩, ⟨8, 1, "Lunch"⟩], 9⟩)
    ∧ (⟨5, 1, "T", "L", [8], []⟩ : Recipe)
        ∈ [(⟨5, 1, "T", "L", [8], []⟩ : Recipe)] :=
  ⟨((claim_C5 1 5 ⟨none, none, none, some ["Lunch"], none⟩
      ⟨[⟨5, 1, "T", "L", [7], []⟩], 6, ⟨[⟨7, 1, "Breakfast"⟩], 8⟩, ⟨[], 0⟩⟩
      ⟨[⟨5, 1, "T", "L", [8], []⟩], 6,
        ⟨[⟨7, 1, "Breakfast"⟩, ⟨8, 1, "Lunch"⟩], 9⟩, ⟨[], 0⟩⟩
      ⟨5, 1, "T", "L", [8], []⟩ rfl).1 ["Lunch"] rfl).1,
    (claim_C5 1 5 ⟨none, none, none, some ["Lunch"], none⟩
      ⟨[⟨5, 1, "T", "L", [7], []⟩], 6, ⟨[⟨7, 1, "Breakfast"⟩], 8⟩, ⟨[], 0⟩⟩
      ⟨[⟨5, 1, "T", "L", [8], []⟩], 6,
        ⟨[⟨7, 1, "Breakfast"⟩, ⟨8, 1, "Lunch"⟩], 9⟩, ⟨[], 0⟩⟩
      ⟨5, 1, "T", "L", [8], []⟩ rfl).2.2⟩

/-- C6: a successful recipe update leaves the owner field exactly as it was
on the stored recipe — the payload's explicit `user` value is never
applied — and creation sets the owner to the requester. -/
theorem claim_C6 (u pk : Nat) (p : RecipePayload) (db : Db) :
    (∀ r2 db2, updateRecipe u pk p db = (.ok r2, db2) →
      r2.user = u ∧ ∃ r, r ∈ db.recipes ∧ r.id = pk ∧ r2.user = r.user)
    ∧ (∀ r2 db2, createRecipe u p db = (.ok r2, db2) → r2.user = u) := by
  constructor
  · intro r2 db2 h
    rcases updateRecipe_ok_spec h with ⟨r, hobj, -, -, huser, -, -, -⟩
    rcases getObject_ok_spec hobj with ⟨hrmem, hru, hrid⟩
    exact ⟨by rw [huser, hru], r, hrmem, hrid, huser⟩
  · intro r2 db2 h
    exact (createRecipe_ok_spec h).2.2.1

theorem claim_C6_witness :
    (⟨5, 1, "New", "L", [], []⟩ : Recipe).user = 1
    ∧ (⟨6, 1, "New", "", [], []⟩ : Recipe).user = 1 :=
  ⟨((claim_C6 1 5 ⟨some "New", none, some 2, none, none⟩
      ⟨[⟨5, 1, "T", "L", [], []⟩], 6, ⟨[], 0⟩, ⟨[], 0⟩⟩).1
      ⟨5, 1, "New", "L", [], []⟩
      ⟨[⟨5, 1, "New", "L", [], []⟩], 6, ⟨[], 0⟩, ⟨[], 0⟩⟩ rfl).1,
    (claim_C6 1 5 ⟨some "New", none, some 2, none, none⟩
      ⟨[⟨5, 1, "T", "L", [], []⟩], 6, ⟨[], 0⟩, ⟨[], 0⟩⟩).2
      ⟨6, 1, "New", "", [], []⟩
      ⟨[⟨5, 1, "T", "L", [], []⟩, ⟨6, 1, "New", "", [], []⟩], 7,
        ⟨[], 0⟩, ⟨[], 0⟩⟩ rfl⟩

/-- C7: reconciliation is idempotent — a second run with the same name list
on the committed store returns the same association id set and the same
store (so it creates no additional rows); in particular, starting from a
store with no Tag row named Vegan owned by `u`, a reconciliation naming
Vegan leaves exactly one such row and a second back-to-back run changes
nothing. -/
theorem claim_C7 (u : Nat) (ns : List String) (s : AttrStore) :
    (∀ ids s1, reconcileAttrs u ns s = .ok (ids, s1) →
      reconcileAttrs u ns s1 = .ok (ids, s1))
    ∧ (countAttr s u "Vegan" = 0 →
      ∀ ids s1, reconcileAttrs u ["Vegan"] s = .ok (ids, s1) →
        countAttr s1 u "Vegan" = 1
        ∧ reconcileAttrs u ["Vegan"] s1 = .ok (ids, s1)) := by
  constructor
  · intro ids s1 h
    exact reconcileAttrs_idem h
  · intro h0 ids s1 h
    have hcopy := h
    have hf : findAttr s.rows u "Vegan" = none := countAttr_eq_zero_iff.mp h0
    rw [reconcile_single_new (by decide) hf] at h
    have h2 := Except.ok.inj h
    rw [Prod.mk.injEq] at h2
    rcases h2 with ⟨-, hs1⟩
    refine ⟨?_, reconcileAttrs_idem hcopy⟩
    rw [← hs1, countAttr_snoc_same]
    have hz : countAttr ⟨s.rows, s.nextId + 1⟩ u "Vegan" = 0 := h0
    rw [hz]

theorem claim_C7_witness :
    countAttr ⟨[⟨0, 1, "Vegan"⟩], 1⟩ 1 "Vegan" = 1
    ∧ reconcileAttrs 1 ["Vegan"] ⟨[⟨0, 1, "Vegan"⟩], 1⟩
        = .ok ([0], ⟨[⟨0, 1, "Vegan"⟩], 1⟩) :=
  (claim_C7 1 ["Vegan"] ⟨[], 0⟩).2 rfl [0] ⟨[⟨0, 1, "Vegan"⟩], 1⟩ rfl

/-- C9: a recipe create or update commits atomically — when any step fails
(owner-scoped lookup, name validation during reconciliation, or any
reconciliation step), the whole operation aborts and the store is exactly
the one before the call; and on success the written recipe row is visible
in the committed store together with its association sets. -/
theorem claim_C9 (u pk : Nat) (p : RecipePayload) (db : Db) :
    (∀ e, (updateRecipe u pk p db).1 = .error e →
        (updateRecipe u pk p db).2 = db)
    ∧ (∀ e, (createRecipe u p db).1 = .error e →
        (createRecipe u p db).2 = db)
    ∧ (∀ r2 db2, updateRecipe u pk p db = (.ok r2, db2) → r2 ∈ db2.recipes)
    ∧ (∀ r2 db2, createRecipe u p db = (.ok r2, db2) → r2 ∈ db2.recipes) := by
  refine ⟨fun e h => runTx_error_snd h, fun e h => runTx_error_snd h, ?_, ?_⟩
  · intro r2 db2 h
    rcases updateRecipe_ok_spec h with ⟨r, hobj, -, -, -, -, hrec, -⟩
    rcases getObject_ok_spec hobj with ⟨hrmem, -, hrid⟩
    rw [hrec]
    exact List.mem_map.mpr ⟨r, hrmem, by rw [if_pos hrid]⟩
  · intro r2 db2 h
    rcases createRecipe_ok_spec h with ⟨-, -, -, -, hrec, -⟩
    rw [hrec]
    exact List.mem_append_right _ (List.mem_singleton.mpr rfl)

theorem claim_C9_witness :
    (updateRecipe 1 5 ⟨none, none, none, some ["A", ""], none⟩
      ⟨[⟨5, 1, "T", "L", [], []⟩], 6, ⟨[], 0⟩, ⟨[], 0⟩⟩).2
    = ⟨[⟨5, 1, "T", "L", [], []⟩], 6, ⟨[], 0⟩, ⟨[], 0⟩⟩ :=
  (claim_C9 1 5 ⟨none, none, none, some ["A", ""], none⟩
    ⟨[⟨5, 1, "T", "L", [], []⟩], 6, ⟨[], 0⟩, ⟨[], 0⟩⟩).1
    .validationError rfl

end RecipeApi
